import Mathlib

/-!
Verification of `bevy_core/src/transform/world_builder.rs`.

The file shallowly embeds the two hierarchy builders of the source:

* `WorldBuilder` — the immediate variant, mutating a live world
  (`world`, `current_entity`, `parent_entity`);
* `CommandBufferBuilder` — the deferred variant, recording operations
  into a command buffer (`command_buffer`, `current_entity`,
  `parent_entities`, `parent_entity`).

Entities are natural numbers (legion entity identifiers are opaque,
comparable handles; both the live world and the command buffer allocate
them sequentially here).  Components are a small closed type covering
the relationship/transform components the builder itself attaches
(`Parent`, `LocalTransform::identity()`) plus opaque caller components.

A call chain (the sequence of builder method calls, including the
bodies of `with_children` closures) is deep-embedded as a `List Cmd`;
the builders' methods themselves are translated one-to-one from the
Rust source as steps of the interpreters `runW` / `runCB`.  Rust
panics (`unwrap`, `expect`) become `Except.error`.
-/

namespace WorldBuilderSpec

/-- Components attached by or through the builder: the `Parent`
relationship component, the default `LocalTransform::identity()`
component, and opaque caller-supplied components (`user n`). -/
inductive Component where
  | parent (e : Nat)
  | localTransform
  | user (n : Nat)
deriving DecidableEq, Repr

/-- The live legion `World`, restricted to what the builder touches:
a sequential entity allocator (`nextId`; entity `e` is alive iff
`e < nextId`) and the log of component additions in insertion order. -/
structure World where
  nextId : Nat
  comps : List (Nat × Component)
deriving DecidableEq, Repr

/-- The empty world. -/
def freshWorld : World := ⟨0, []⟩

/-- `World::insert((), components)`: allocate one entity per component
list, attach its components, return the new ids in order (legion
returns the slice of created entities). -/
def insertEntities (w : World) : List (List Component) → List Nat × World
  | [] => ([], w)
  | cs :: rest =>
    let w1 : World := ⟨w.nextId + 1, w.comps ++ cs.map (fun c => (w.nextId, c))⟩
    (w.nextId :: (insertEntities w1 rest).1, (insertEntities w1 rest).2)

/-- `World::add_component(entity, component)`: fallible at the store
level — legion returns an error (and leaves the world unchanged) when
the entity is not alive.  The `Bool` is the success flag of the
returned `Result`. -/
def addComponent (w : World) (e : Nat) (c : Component) : World × Bool :=
  if e < w.nextId then (⟨w.nextId, w.comps ++ [(e, c)]⟩, true) else (w, false)

/-- Components of entity `e` in a raw addition log, in insertion order. -/
def compsOfList (l : List (Nat × Component)) (e : Nat) : List Component :=
  l.filterMap (fun p => if p.1 = e then some p.2 else none)

/-- Components of entity `e` in a world, in insertion order. -/
def componentsOf (w : World) (e : Nat) : List Component :=
  compsOfList w.comps e

/-- Well-formedness: every logged component addition is on an alive
entity.  Holds for every builder-reachable world. -/
def WFWorld (w : World) : Bool :=
  w.comps.all (fun p => p.1 < w.nextId)

/-- Builder panics, surfaced as `Except.error`:
`unwrapNone` is `Option::unwrap` on `None`; `expectFail msg` is
`Option::expect(msg)` on `None`. -/
inductive BuildErr where
  | unwrapNone
  | expectFail (msg : String)
deriving DecidableEq, Repr

/-- A deep-embedded builder call chain: one constructor per public
method of the shared builder protocol; `withChildren body` carries the
calls the caller's closure makes on the builder. -/
inductive Cmd where
  | entity
  | setEntity (e : Nat)
  | withC (c : Component)
  | entitiesB (css : List (List Component))
  | entityWith (cs : List Component)
  | withChildren (body : List Cmd)

/-- State of the immediate `WorldBuilder`: the borrowed world plus the
cursor fields `current_entity` and the single parent slot
`parent_entity`. -/
structure WB where
  world : World
  current_entity : Option Nat
  parent_entity : Option Nat
deriving DecidableEq, Repr

/-- `WorldBuilderSource::build(&mut World)`: both cursor fields start
out `None`. -/
def buildWB (w : World) : WB := ⟨w, none, none⟩

/-- `WorldBuilder::add_parent_to_current_entity`: unwraps
`current_entity`; when `parent_entity` is set, issues
`add_component(current, Parent(parent))` and
`add_component(current, LocalTransform::identity())`, discarding both
store results (`let _ = ...`). -/
def addParentToCurrentW (s : WB) : Except BuildErr WB :=
  match s.current_entity with
  | none => .error .unwrapNone
  | some e =>
    match s.parent_entity with
    | some p =>
      let (w1, _) := addComponent s.world e (.parent p)
      let (w2, _) := addComponent w1 e .localTransform
      .ok { s with world := w2 }
    | none => .ok s

/-- The immediate interpreter: runs a call chain against a
`WorldBuilder` state, one case per Rust method.
`withChildren` follows the source exactly: save `current_entity` into
the single `parent_entity` slot, clear `current_entity`, run the
closure body, then set `current_entity := parent_entity` and
`parent_entity := None`. -/
def runW : List Cmd → WB → Except BuildErr WB
  | [], s => .ok s
  | .entity :: rest, s =>
    let (ids, w') := insertEntities s.world [[]]
    match ids with
    | [] => .error .unwrapNone
    | e :: _ =>
      match addParentToCurrentW { s with world := w', current_entity := some e } with
      | .error er => .error er
      | .ok s' => runW rest s'
  | .setEntity e :: rest, s =>
    runW rest { s with current_entity := some e }
  | .withC c :: rest, s =>
    match s.current_entity with
    | none => .error .unwrapNone
    | some e =>
      let (w', _) := addComponent s.world e c
      runW rest { s with world := w' }
  | .entitiesB css :: rest, s =>
    let (_, w') := insertEntities s.world css
    runW rest { s with world := w' }
  | .entityWith cs :: rest, s =>
    let (ids, w') := insertEntities s.world [cs]
    match ids with
    | [] => .error .unwrapNone
    | e :: _ =>
      match addParentToCurrentW { s with world := w', current_entity := some e } with
      | .error er => .error er
      | .ok s' => runW rest s'
  | .withChildren body :: rest, s =>
    let s1 : WB := { s with parent_entity := s.current_entity, current_entity := none }
    match runW body s1 with
    | .error er => .error er
    | .ok s2 =>
      runW rest { s2 with current_entity := s2.parent_entity, parent_entity := none }

/-- One recorded command-buffer operation: a bulk insert (tagged with
the provisional ids it handed out) or a single component addition on a
(possibly provisional) id. -/
inductive Op where
  | insert (provIds : List Nat) (css : List (List Component))
  | addComp (e : Nat) (c : Component)
deriving DecidableEq, Repr

/-- The legion `CommandBuffer`, restricted to what the builder uses:
a sequential provisional-id allocator and the replay log, in call
order. -/
structure CommandBuffer where
  nextProv : Nat
  log : List Op
deriving DecidableEq, Repr

/-- `CommandBuffer::insert(tags, components)`: allocates one
provisional id per component list, records the operation, returns the
provisional ids (tags are chunk partitioning, external to this core,
and carry no per-entity component). -/
def cbInsert (cb : CommandBuffer) (css : List (List Component)) :
    List Nat × CommandBuffer :=
  let ids := List.range' cb.nextProv css.length
  (ids, ⟨cb.nextProv + css.length, cb.log ++ [.insert ids css]⟩)

/-- `CommandBuffer::add_component(entity, component)`: recording into
the log cannot fail; failures can only surface at replay time. -/
def cbAddComponent (cb : CommandBuffer) (e : Nat) (c : Component) : CommandBuffer :=
  ⟨cb.nextProv, cb.log ++ [.addComp e c]⟩

/-- The empty command buffer. -/
def freshBuffer : CommandBuffer := ⟨0, []⟩

/-- State of the deferred `CommandBufferBuilder`: the borrowed command
buffer, `current_entity`, the explicit parent stack `parent_entities`
(head = most recently pushed, i.e. Rust's `Vec::last`), and the cached
top `parent_entity`. -/
structure CB where
  command_buffer : CommandBuffer
  current_entity : Option Nat
  parent_entities : List Nat
  parent_entity : Option Nat
deriving DecidableEq, Repr

/-- `CommandBufferBuilderSource::build(&mut CommandBuffer)`: empty
cursor, empty stack. -/
def buildCB (cb : CommandBuffer) : CB := ⟨cb, none, [], none⟩

/-- `CommandBufferBuilder::add_parent_to_current_entity`: identical
policy to the immediate variant, recorded into the buffer. -/
def addParentToCurrentCB (s : CB) : Except BuildErr CB :=
  match s.current_entity with
  | none => .error .unwrapNone
  | some e =>
    match s.parent_entity with
    | some p =>
      let cb1 := cbAddComponent s.command_buffer e (.parent p)
      let cb2 := cbAddComponent cb1 e .localTransform
      .ok { s with command_buffer := cb2 }
    | none => .ok s

/-- The diagnostic of `CommandBufferBuilder::with_children`'s
`expect`. -/
def childrenWithoutParentMsg : String :=
  "Cannot add children without a parent. Try creating an entity first."

/-- The deferred interpreter.  `withChildren` follows the source:
`expect` the current entity (panicking with
`childrenWithoutParentMsg` when there is none), push it on
`parent_entities`, set `parent_entity` to it, clear `current_entity`,
run the closure body, then pop the stack into `current_entity` and
recompute `parent_entity` from the new stack top. -/
def runCB : List Cmd → CB → Except BuildErr CB
  | [], s => .ok s
  | .entity :: rest, s =>
    let (ids, cb') := cbInsert s.command_buffer [[]]
    match ids with
    | [] => .error .unwrapNone
    | e :: _ =>
      match addParentToCurrentCB { s with command_buffer := cb', current_entity := some e } with
      | .error er => .error er
      | .ok s' => runCB rest s'
  | .setEntity e :: rest, s =>
    runCB rest { s with current_entity := some e }
  | .withC c :: rest, s =>
    match s.current_entity with
    | none => .error .unwrapNone
    | some e =>
      runCB rest { s with command_buffer := cbAddComponent s.command_buffer e c }
  | .entitiesB css :: rest, s =>
    let (_, cb') := cbInsert s.command_buffer css
    runCB rest { s with command_buffer := cb' }
  | .entityWith cs :: rest, s =>
    let (ids, cb') := cbInsert s.command_buffer [cs]
    match ids with
    | [] => .error .unwrapNone
    | e :: _ =>
      match addParentToCurrentCB { s with command_buffer := cb', current_entity := some e } with
      | .error er => .error er
      | .ok s' => runCB rest s'
  | .withChildren body :: rest, s =>
    match s.current_entity with
    | none => .error (.expectFail childrenWithoutParentMsg)
    | some c =>
      let s1 : CB := { s with parent_entities := c :: s.parent_entities,
                              parent_entity := some c, current_entity := none }
      match runCB body s1 with
      | .error er => .error er
      | .ok s2 =>
        let restStack := s2.parent_entities.tail
        runCB rest { s2 with current_entity := s2.parent_entities.head?,
                             parent_entities := restStack,
                             parent_entity := if restStack.isEmpty then none
                                              else restStack.head? }

/-- Binding of provisional ids to final world ids, accumulated during
replay; an id with no binding is treated as a pre-existing world id. -/
def lookupBind (b : List (Nat × Nat)) (e : Nat) : Nat :=
  match b.find? (fun p => p.1 = e) with
  | some p => p.2
  | none => e

/-- Modelled from the spec: legion's command-buffer replay machinery is
not part of this repository.  Per §4.3 the deferred implementation
"records them into a replay log tagged with provisional identifiers and
performs them when the log is later applied to a world": operations are
performed against the target world in call order, and each insert's
provisional ids are bound to the final ids the world allocates. -/
def replayOps : List Op → World → List (Nat × Nat) →
    World × List (Nat × Nat)
  | [], w, b => (w, b)
  | .insert provIds css :: rest, w, b =>
    let (ids, w') := insertEntities w css
    replayOps rest w' (b ++ provIds.zip ids)
  | .addComp e c :: rest, w, b =>
    replayOps rest (addComponent w (lookupBind b e) c).1 b

/-- Modelled from the spec: applying a recorded command buffer to a
world (`CommandBuffer::write`, external to this repository) replays its
log in order, starting from an empty provisional binding. -/
def applyBuffer (cb : CommandBuffer) (w : World) : World :=
  (replayOps cb.log w []).1

/-- A call chain with no `withChildren` call at all. -/
def noWC : List Cmd → Bool
  | [] => true
  | .withChildren _ :: _ => false
  | _ :: rest => noWC rest

/-- A call chain whose `withChildren` bodies contain no nested
`withChildren` (nesting depth at most one). -/
def flatProg : List Cmd → Bool
  | [] => true
  | .withChildren body :: rest => noWC body && flatProg rest
  | _ :: rest => flatProg rest

/-- The deferred builder's cached-top invariant:
`parent_entity` equals the top (`Vec::last`) of `parent_entities`. -/
def InvCB (s : CB) : Prop :=
  s.parent_entity = s.parent_entities.head?

instance (s : CB) : Decidable (InvCB s) := by
  unfold InvCB; infer_instance

/-- A provisional binding that maps every id to itself.  On a fresh
world both allocators count up from zero in lockstep, so replay only
ever produces identity bindings. -/
def idBind (b : List (Nat × Nat)) : Prop := ∀ p ∈ b, p.1 = p.2

/-- The lockstep simulation relation between an immediate builder
state and a deferred builder state: replaying the buffer recorded so
far on a fresh world reproduces the immediate world, the accumulated
binding is the identity, the allocators agree, and the two cursors
agree. -/
def Rcore (s : WB) (t : CB) : Prop :=
  (replayOps t.command_buffer.log freshWorld []).1 = s.world ∧
  idBind (replayOps t.command_buffer.log freshWorld []).2 ∧
  t.command_buffer.nextProv = s.world.nextId ∧
  t.current_entity = s.current_entity ∧
  t.parent_entity = s.parent_entity

/-- A component that is neither a `Parent` relationship nor a
`LocalTransform`: what `entities(...)`-created entities are allowed to
carry under P2. -/
def noLink (c : Component) : Bool :=
  match c with
  | .parent _ => false
  | .localTransform => false
  | .user _ => true

/-- Number of `Parent` components recorded in a world — an
isomorphism-invariant of the component/relationship graph. -/
def countParents (w : World) : Nat :=
  (w.comps.filter (fun p => match p.2 with | .parent _ => true | _ => false)).length

section ListLemmas

theorem compsOfList_append (l1 l2 : List (Nat × Component)) (e : Nat) :
    compsOfList (l1 ++ l2) e = compsOfList l1 e ++ compsOfList l2 e := by
  simp [compsOfList, List.filterMap_append]

theorem compsOfList_map_self (cs : List Component) (e : Nat) :
    compsOfList (cs.map (fun c => (e, c))) e = cs := by
  induction cs with
  | nil => rfl
  | cons c rest ih => simp [compsOfList] at ih ⊢; simp [ih]

theorem compsOfList_map_ne (cs : List Component) (e e' : Nat) (h : e' ≠ e) :
    compsOfList (cs.map (fun c => (e, c))) e' = [] := by
  induction cs with
  | nil => rfl
  | cons c rest ih => simp [compsOfList] at ih ⊢; simp [ih, Ne.symm h]

theorem compsOfList_eq_nil (l : List (Nat × Component)) (e : Nat)
    (hl : ∀ p ∈ l, p.1 ≠ e) : compsOfList l e = [] := by
  induction l with
  | nil => rfl
  | cons p rest ih =>
    have h1 : p.1 ≠ e := hl p (by simp)
    have h2 : compsOfList rest e = [] :=
      ih (fun q hq => hl q (List.mem_cons_of_mem _ hq))
    simp only [compsOfList, List.filterMap_cons] at h2 ⊢
    rw [if_neg h1]
    exact h2

theorem compsOfList_eq_nil_of_lt (l : List (Nat × Component)) (n : Nat) (e : Nat)
    (hl : ∀ p ∈ l, p.1 < n) (he : n ≤ e) : compsOfList l e = [] :=
  compsOfList_eq_nil l e
    (fun p hp => Nat.ne_of_lt (Nat.lt_of_lt_of_le (hl p hp) he))

end ListLemmas

section WorldLemmas

theorem WFWorld_iff (w : World) :
    WFWorld w = true ↔ ∀ p ∈ w.comps, p.1 < w.nextId := by
  simp [WFWorld]

theorem insertEntities_nextId (css : List (List Component)) :
    ∀ w : World, (insertEntities w css).2.nextId = w.nextId + css.length := by
  induction css with
  | nil => intro w; simp [insertEntities]
  | cons cs rest ih =>
    intro w
    simp only [insertEntities]
    rw [ih]
    show w.nextId + 1 + rest.length = w.nextId + (cs :: rest).length
    simp
    omega

theorem insertEntities_ids (css : List (List Component)) :
    ∀ w : World, (insertEntities w css).1 = List.range' w.nextId css.length := by
  induction css with
  | nil => intro w; simp [insertEntities]
  | cons cs rest ih =>
    intro w
    simp only [insertEntities, List.length_cons, List.range'_succ]
    rw [ih]

theorem insertEntities_preserve (css : List (List Component)) :
    ∀ (w : World) (e : Nat), e < w.nextId →
      componentsOf (insertEntities w css).2 e = componentsOf w e := by
  induction css with
  | nil => intro w e _; rfl
  | cons cs rest ih =>
    intro w e he
    simp only [insertEntities]
    rw [ih ⟨w.nextId + 1, w.comps ++ cs.map (fun c => (w.nextId, c))⟩ e (by simp; omega)]
    simp only [componentsOf, compsOfList_append]
    rw [compsOfList_map_ne _ _ _ (Nat.ne_of_lt he)]
    simp

theorem WFWorld_insertEntities (css : List (List Component)) :
    ∀ w : World, WFWorld w = true → WFWorld (insertEntities w css).2 = true := by
  induction css with
  | nil => intro w hw; exact hw
  | cons cs rest ih =>
    intro w hw
    simp only [insertEntities]
    apply ih
    rw [WFWorld_iff] at hw ⊢
    intro p hp
    simp only [List.mem_append] at hp
    rcases hp with hp | hp
    · exact Nat.lt_succ_of_lt (hw p hp)
    · rcases List.mem_map.mp hp with ⟨c, _, rfl⟩
      exact Nat.lt_succ_self _

theorem componentsOf_insertEntities (css : List (List Component)) :
    ∀ (w : World) (i : Nat), WFWorld w = true → i < css.length →
      componentsOf (insertEntities w css).2 (w.nextId + i) = css.getD i [] := by
  induction css with
  | nil => intro w i _ hi; simp at hi
  | cons cs rest ih =>
    intro w i hw hi
    have hw1 : WFWorld ⟨w.nextId + 1,
        w.comps ++ cs.map (fun c => (w.nextId, c))⟩ = true := by
      rw [WFWorld_iff]
      intro p hp
      simp only [List.mem_append] at hp
      rcases hp with hp | hp
      · exact Nat.lt_succ_of_lt (((WFWorld_iff w).mp hw) p hp)
      · rcases List.mem_map.mp hp with ⟨c, _, rfl⟩
        exact Nat.lt_succ_self _
    simp only [insertEntities]
    match i with
    | 0 =>
      simp only [Nat.add_zero, List.getD_cons_zero]
      rw [insertEntities_preserve rest ⟨w.nextId + 1,
        w.comps ++ cs.map (fun c => (w.nextId, c))⟩ w.nextId (by simp)]
      simp only [componentsOf, compsOfList_append]
      rw [compsOfList_eq_nil_of_lt w.comps w.nextId w.nextId
        ((WFWorld_iff w).mp hw) (Nat.le_refl _)]
      rw [compsOfList_map_self]
      simp
    | j + 1 =>
      have h2 := ih ⟨w.nextId + 1, w.comps ++ cs.map (fun c => (w.nextId, c))⟩ j
        hw1 (by simp only [List.length_cons] at hi; omega)
      simp only [List.getD_cons_succ]
      convert h2 using 2
      simp
      omega

theorem addComponent_nextId (w : World) (e : Nat) (c : Component) :
    (addComponent w e c).1.nextId = w.nextId := by
  unfold addComponent; split <;> rfl

theorem addComponent_alive (w : World) (e : Nat) (c : Component)
    (he : e < w.nextId) :
    addComponent w e c = (⟨w.nextId, w.comps ++ [(e, c)]⟩, true) := by
  simp [addComponent, he]

theorem addComponent_dead (w : World) (e : Nat) (c : Component)
    (he : ¬ e < w.nextId) : addComponent w e c = (w, false) := by
  simp [addComponent, he]

theorem componentsOf_addComponent_self (w : World) (e : Nat) (c : Component)
    (he : e < w.nextId) :
    componentsOf (addComponent w e c).1 e = componentsOf w e ++ [c] := by
  rw [addComponent_alive w e c he]
  simp [componentsOf, compsOfList_append, compsOfList]

theorem componentsOf_addComponent_ne (w : World) (e e' : Nat) (c : Component)
    (hne : e' ≠ e) :
    componentsOf (addComponent w e c).1 e' = componentsOf w e' := by
  unfold addComponent
  split
  · simp [componentsOf, compsOfList_append, compsOfList, Ne.symm hne]
  · rfl

theorem WFWorld_addComponent (w : World) (e : Nat) (c : Component)
    (hw : WFWorld w = true) : WFWorld (addComponent w e c).1 = true := by
  unfold addComponent
  split
  · rw [WFWorld_iff] at hw ⊢
    intro p hp
    simp only [List.mem_append, List.mem_singleton] at hp
    rcases hp with hp | rfl
    · exact hw p hp
    · assumption
  · exact hw

end WorldLemmas

section FrameLemmas

theorem addParentToCurrentW_frame (s s' : WB)
    (h : addParentToCurrentW s = .ok s') :
    s'.current_entity = s.current_entity ∧ s'.parent_entity = s.parent_entity := by
  unfold addParentToCurrentW at h
  split at h
  · exact absurd h (by simp)
  · split at h
    · simp only [Except.ok.injEq] at h
      subst h
      exact ⟨rfl, rfl⟩
    · simp only [Except.ok.injEq] at h
      subst h
      exact ⟨rfl, rfl⟩

theorem addParentToCurrentCB_frame (t t' : CB)
    (h : addParentToCurrentCB t = .ok t') :
    t'.current_entity = t.current_entity ∧
    t'.parent_entities = t.parent_entities ∧
    t'.parent_entity = t.parent_entity := by
  unfold addParentToCurrentCB at h
  split at h
  · exact absurd h (by simp)
  · split at h
    · simp only [Except.ok.injEq] at h
      subst h
      exact ⟨rfl, rfl, rfl⟩
    · simp only [Except.ok.injEq] at h
      subst h
      exact ⟨rfl, rfl, rfl⟩

/-- Any successfully completed call chain leaves the deferred builder's
parent stack exactly as it found it, and preserves the cached-top
invariant `InvCB`. -/
theorem runCB_stack_inv : ∀ (l : List Cmd) (s : CB), ∀ s' : CB,
    runCB l s = .ok s' →
    s'.parent_entities = s.parent_entities ∧ (InvCB s → InvCB s') := by
  intro l s
  induction l, s using runCB.induct with
  | case1 s =>
    intro s' h
    simp only [runCB, Except.ok.injEq] at h
    subst h
    exact ⟨rfl, id⟩
  | case2 rest s cb' hins =>
    intro s' h
    simp [cbInsert] at hins
  | case3 rest s cb' e tl er hap hins =>
    intro s' h
    simp only [runCB] at h
    rw [hins] at h
    simp only at h
    rw [hap] at h
    exact absurd h (by simp)
  | case4 rest s cb' e tl s1 hap hins ih =>
    intro s' h
    simp only [runCB] at h
    rw [hins] at h
    simp only at h
    rw [hap] at h
    simp only at h
    have hfr := addParentToCurrentCB_frame _ _ hap
    have := ih s' h
    refine ⟨by rw [this.1, hfr.2.1], fun hInv => this.2 ?_⟩
    unfold InvCB at hInv ⊢
    rw [hfr.2.1, hfr.2.2]
    exact hInv
  | case5 e rest s ih =>
    intro s' h
    simp only [runCB] at h
    have := ih s' h
    exact ⟨this.1, fun hInv => this.2 hInv⟩
  | case6 c rest s hc =>
    intro s' h
    simp only [runCB] at h
    rw [hc] at h
    exact absurd h (by simp)
  | case7 c rest s e hc ih =>
    intro s' h
    simp only [runCB] at h
    rw [hc] at h
    simp only at h
    rw [hc] at ih
    have := ih s' h
    exact ⟨this.1, fun hInv => this.2 hInv⟩
  | case8 css rest s ids cb' hins ih =>
    intro s' h
    simp only [runCB] at h
    rw [hins] at h
    simp only at h
    have := ih s' h
    exact ⟨this.1, fun hInv => this.2 hInv⟩
  | case9 cs rest s cb' hins =>
    intro s' h
    simp [cbInsert] at hins
  | case10 cs rest s cb' e tl er hap hins =>
    intro s' h
    simp only [runCB] at h
    rw [hins] at h
    simp only at h
    rw [hap] at h
    exact absurd h (by simp)
  | case11 cs rest s cb' e tl s1 hap hins ih =>
    intro s' h
    simp only [runCB] at h
    rw [hins] at h
    simp only at h
    rw [hap] at h
    simp only at h
    have hfr := addParentToCurrentCB_frame _ _ hap
    have := ih s' h
    refine ⟨by rw [this.1, hfr.2.1], fun hInv => this.2 ?_⟩
    unfold InvCB at hInv ⊢
    rw [hfr.2.1, hfr.2.2]
    exact hInv
  | case12 body rest s hc =>
    intro s' h
    simp only [runCB] at h
    rw [hc] at h
    exact absurd h (by simp)
  | case13 body rest s e hc s1 er hbody ihbody =>
    intro s' h
    simp only [runCB] at h
    rw [hc] at h
    simp only at h
    rw [hbody] at h
    exact absurd h (by simp)
  | case14 body rest s e hc s1 s2 hbody restStack ihbody ihrest =>
    intro s' h
    simp only [runCB] at h
    rw [hc] at h
    simp only at h
    rw [hbody] at h
    simp only at h
    have hstack : s2.parent_entities = e :: s.parent_entities :=
      (ihbody s2 hbody).1
    have hres := ihrest s' h
    have h1 : s'.parent_entities = s2.parent_entities.tail := hres.1
    rw [hstack] at h1
    simp only [List.tail_cons] at h1
    refine ⟨h1, fun _ => hres.2 ?_⟩
    unfold InvCB
    by_cases he : restStack.isEmpty = true
    · simp [he, List.isEmpty_iff.mp he]
    · simp [he]

/-- A call chain containing no `with_children` never touches the
immediate builder's single `parent_entity` slot. -/
theorem runW_noWC_parent : ∀ (l : List Cmd), noWC l = true →
    ∀ s s' : WB, runW l s = .ok s' → s'.parent_entity = s.parent_entity := by
  intro l
  induction l with
  | nil =>
    intro _ s s' h
    simp only [runW, Except.ok.injEq] at h
    subst h
    rfl
  | cons c rest ih =>
    intro hno s s' h
    match c with
    | .entity =>
      simp only [runW, insertEntities] at h
      split at h
      · exact absurd h (by simp)
      · rename_i s1 heq
        have hfr := addParentToCurrentW_frame _ _ heq
        rw [ih (by simpa [noWC] using hno) _ _ h, hfr.2]
    | .setEntity e =>
      simp only [runW] at h
      rw [ih (by simpa [noWC] using hno) _ _ h]
    | .withC cc =>
      simp only [runW] at h
      split at h
      · exact absurd h (by simp)
      · rw [ih (by simpa [noWC] using hno) _ _ h]
    | .entitiesB css =>
      simp only [runW] at h
      rw [ih (by simpa [noWC] using hno) _ _ h]
    | .entityWith cs =>
      simp only [runW, insertEntities] at h
      split at h
      · exact absurd h (by simp)
      · rename_i s1 heq
        have hfr := addParentToCurrentW_frame _ _ heq
        rw [ih (by simpa [noWC] using hno) _ _ h, hfr.2]
    | .withChildren body =>
      simp [noWC] at hno

end FrameLemmas

section ReplayLemmas

theorem idBind_nil : idBind [] := by
  intro p hp
  simp at hp

theorem idBind_append (b1 b2 : List (Nat × Nat)) (h1 : idBind b1)
    (h2 : idBind b2) : idBind (b1 ++ b2) := by
  intro p hp
  rcases List.mem_append.mp hp with hp | hp
  · exact h1 p hp
  · exact h2 p hp

theorem idBind_zip_self (l : List Nat) : idBind (l.zip l) := by
  induction l with
  | nil => exact idBind_nil
  | cons a rest ih =>
    intro p hp
    simp only [List.zip_cons_cons, List.mem_cons] at hp
    rcases hp with rfl | hp
    · rfl
    · exact ih p hp

theorem lookupBind_id (b : List (Nat × Nat)) (e : Nat) (hb : idBind b) :
    lookupBind b e = e := by
  unfold lookupBind
  cases hfind : b.find? (fun p => p.1 = e) with
  | none => rfl
  | some p =>
    have hmem : p ∈ b := List.mem_of_find?_eq_some hfind
    have hpe : p.1 = e := by
      have := List.find?_some hfind
      simpa using this
    rw [← hpe, hb p hmem]

theorem replayOps_append (l1 l2 : List Op) :
    ∀ (w : World) (b : List (Nat × Nat)),
      replayOps (l1 ++ l2) w b
        = replayOps l2 (replayOps l1 w b).1 (replayOps l1 w b).2 := by
  induction l1 with
  | nil => intro w b; rfl
  | cons op rest ih =>
    intro w b
    cases op with
    | insert provIds css =>
      simp only [List.cons_append, replayOps]
      exact ih _ _
    | addComp e c =>
      simp only [List.cons_append, replayOps]
      exact ih _ _

/-- Replaying a buffer after one more recorded `add_component` is
replaying the old buffer and then performing the addition on the
replayed world. -/
theorem replay_cbAdd (cb : CommandBuffer) (e : Nat) (c : Component) :
    replayOps (cbAddComponent cb e c).log freshWorld []
      = ((addComponent (replayOps cb.log freshWorld []).1
            (lookupBind (replayOps cb.log freshWorld []).2 e) c).1,
         (replayOps cb.log freshWorld []).2) := by
  unfold cbAddComponent
  rw [replayOps_append]
  rfl

/-- Replaying a buffer after one more recorded bulk insert is replaying
the old buffer, inserting into the replayed world, and binding the
provisional ids to the allocated ids. -/
theorem replay_cbInsert (cb : CommandBuffer) (css : List (List Component)) :
    replayOps (cbInsert cb css).2.log freshWorld []
      = ((insertEntities (replayOps cb.log freshWorld []).1 css).2,
         (replayOps cb.log freshWorld []).2 ++
           (List.range' cb.nextProv css.length).zip
             (insertEntities (replayOps cb.log freshWorld []).1 css).1) := by
  unfold cbInsert
  rw [replayOps_append]
  rfl

end ReplayLemmas

section Lockstep

theorem Rcore_init : Rcore (buildWB freshWorld) (buildCB freshBuffer) :=
  ⟨rfl, idBind_nil, rfl, rfl, rfl⟩

/-- The shared parent-link policy preserves the simulation: when the
deferred `add_parent_to_current_entity` succeeds, the immediate one
succeeds and the resulting states are again related. -/
theorem addParent_equiv (s : WB) (t : CB) (h : Rcore s t) (t1 : CB)
    (hcb : addParentToCurrentCB t = .ok t1) :
    ∃ s1, addParentToCurrentW s = .ok s1 ∧ Rcore s1 t1 ∧
      t1.parent_entities = t.parent_entities := by
  obtain ⟨hw, hb, hn, hcur, hpar⟩ := h
  unfold addParentToCurrentCB at hcb
  cases hc : t.current_entity with
  | none =>
    rw [hc] at hcb
    exact absurd hcb (by simp)
  | some e =>
    rw [hc] at hcb
    have hsc : s.current_entity = some e := by rw [← hcur, hc]
    cases hp : t.parent_entity with
    | none =>
      rw [hp] at hcb
      simp only [Except.ok.injEq] at hcb
      subst hcb
      have hsp : s.parent_entity = none := by rw [← hpar, hp]
      refine ⟨s, ?_, ⟨hw, hb, hn, hcur, hpar⟩, rfl⟩
      unfold addParentToCurrentW
      rw [hsc, hsp]
    | some p =>
      rw [hp] at hcb
      simp only [Except.ok.injEq] at hcb
      subst hcb
      have hsp : s.parent_entity = some p := by rw [← hpar, hp]
      have hl1 : lookupBind (replayOps t.command_buffer.log freshWorld []).2 e = e :=
        lookupBind_id _ _ hb
      refine ⟨{ s with world := (addComponent (addComponent s.world e
          (.parent p)).1 e .localTransform).1 }, ?_, ?_, rfl⟩
      · unfold addParentToCurrentW
        rw [hsc, hsp]
      · refine ⟨?_, ?_, ?_, hsc.symm, hsp.symm⟩
        · simp only [replay_cbAdd, hl1, hw]
        · simp only [replay_cbAdd]
          exact hb
        · simp only [cbAddComponent, addComponent_nextId]
          exact hn

theorem range'_one_eq (n : Nat) : List.range' n 1 = [n] := rfl

theorem insertEntities_one_ids (w : World) (cs : List Component) :
    (insertEntities w [cs]).1 = [w.nextId] := rfl

theorem cbInsert_one_ids (cb : CommandBuffer) (cs : List Component) :
    (cbInsert cb [cs]).1 = [cb.nextProv] := rfl

theorem cbInsert_nextProv (cb : CommandBuffer) (css : List (List Component)) :
    (cbInsert cb css).2.nextProv = cb.nextProv + css.length := rfl

/-- Recording a bulk insert keeps the replayed world, the binding and
the allocators in lockstep with performing the same insert directly. -/
theorem replay_after_insert (s : WB) (t : CB) (css : List (List Component))
    (hR : Rcore s t) :
    (replayOps (cbInsert t.command_buffer css).2.log freshWorld []).1
        = (insertEntities s.world css).2 ∧
    idBind (replayOps (cbInsert t.command_buffer css).2.log freshWorld []).2 ∧
    (cbInsert t.command_buffer css).2.nextProv
        = (insertEntities s.world css).2.nextId := by
  obtain ⟨hw, hb, hn, hcur, hpar⟩ := hR
  refine ⟨?_, ?_, ?_⟩
  · rw [replay_cbInsert]
    simp only [hw]
  · rw [replay_cbInsert]
    apply idBind_append _ _ hb
    have hids : (insertEntities (replayOps t.command_buffer.log freshWorld []).1 css).1
        = List.range' t.command_buffer.nextProv css.length := by
      rw [insertEntities_ids, hw, hn]
    rw [hids]
    exact idBind_zip_self _
  · rw [cbInsert_nextProv, insertEntities_nextId, hn]

/-- Recording an `add_component` keeps the replayed world, the binding
and the allocators in lockstep with performing the same addition
directly. -/
theorem replay_after_add (s : WB) (t : CB) (e : Nat) (c : Component)
    (hR : Rcore s t) :
    (replayOps (cbAddComponent t.command_buffer e c).log freshWorld []).1
        = (addComponent s.world e c).1 ∧
    idBind (replayOps (cbAddComponent t.command_buffer e c).log freshWorld []).2 ∧
    (cbAddComponent t.command_buffer e c).nextProv
        = (addComponent s.world e c).1.nextId := by
  obtain ⟨hw, hb, hn, hcur, hpar⟩ := hR
  have hl : lookupBind (replayOps t.command_buffer.log freshWorld []).2 e = e :=
    lookupBind_id _ _ hb
  refine ⟨?_, ?_, ?_⟩
  · rw [replay_cbAdd]
    simp only [hl, hw]
  · rw [replay_cbAdd]
    exact hb
  · show t.command_buffer.nextProv = _
    rw [addComponent_nextId, hn]

/-- Lockstep simulation for `with_children`-free call chains: from
related states, a successful deferred run forces a successful immediate
run ending in a related state. -/
theorem lockstep_noWC : ∀ (l : List Cmd), noWC l = true →
    ∀ (s : WB) (t t' : CB), Rcore s t → runCB l t = .ok t' →
    ∃ s', runW l s = .ok s' ∧ Rcore s' t' := by
  intro l
  induction l with
  | nil =>
    intro _ s t t' hR h
    simp only [runCB, Except.ok.injEq] at h
    subst h
    exact ⟨s, by simp only [runW], hR⟩
  | cons c rest ih =>
    intro hno s t t' hR h
    match c with
    | .entity =>
      have hrest : noWC rest = true := by simpa [noWC] using hno
      simp only [runCB, cbInsert_one_ids] at h
      split at h
      · exact absurd h (by simp)
      · rename_i t2 hap
        have hmid : Rcore
            { s with world := (insertEntities s.world [[]]).2,
                     current_entity := some s.world.nextId }
            { t with command_buffer := (cbInsert t.command_buffer [[]]).2,
                     current_entity := some t.command_buffer.nextProv } := by
          have h3 := replay_after_insert s t [[]] hR
          exact ⟨h3.1, h3.2.1, h3.2.2, by rw [hR.2.2.1], hR.2.2.2.2⟩
        obtain ⟨s2, hap2, hR2, _⟩ := addParent_equiv _ _ hmid t2 hap
        obtain ⟨s', hrun, hR'⟩ := ih hrest s2 t2 t' hR2 h
        refine ⟨s', ?_, hR'⟩
        simp only [runW, insertEntities_one_ids]
        rw [hap2]
        exact hrun
    | .setEntity e =>
      have hrest : noWC rest = true := by simpa [noWC] using hno
      simp only [runCB] at h
      obtain ⟨s', hrun, hR'⟩ := ih hrest { s with current_entity := some e }
        { t with current_entity := some e } t'
        ⟨hR.1, hR.2.1, hR.2.2.1, rfl, hR.2.2.2.2⟩ h
      exact ⟨s', by simp only [runW]; exact hrun, hR'⟩
    | .withC cc =>
      have hrest : noWC rest = true := by simpa [noWC] using hno
      simp only [runCB] at h
      split at h
      · exact absurd h (by simp)
      · rename_i e hc
        have hsc : s.current_entity = some e := by rw [← hR.2.2.2.1, hc]
        have h3 := replay_after_add s t e cc hR
        obtain ⟨s', hrun, hR'⟩ := ih hrest
          { s with world := (addComponent s.world e cc).1 }
          { t with command_buffer := cbAddComponent t.command_buffer e cc } t'
          ⟨h3.1, h3.2.1, h3.2.2, hR.2.2.2.1, hR.2.2.2.2⟩ h
        refine ⟨s', ?_, hR'⟩
        simp only [runW, hsc]
        rw [hsc] at hrun
        exact hrun
    | .entitiesB css =>
      have hrest : noWC rest = true := by simpa [noWC] using hno
      simp only [runCB] at h
      have h3 := replay_after_insert s t css hR
      obtain ⟨s', hrun, hR'⟩ := ih hrest
        { s with world := (insertEntities s.world css).2 }
        { t with command_buffer := (cbInsert t.command_buffer css).2 } t'
        ⟨h3.1, h3.2.1, h3.2.2, hR.2.2.2.1, hR.2.2.2.2⟩ h
      exact ⟨s', by simp only [runW]; exact hrun, hR'⟩
    | .entityWith cs =>
      have hrest : noWC rest = true := by simpa [noWC] using hno
      simp only [runCB, cbInsert_one_ids] at h
      split at h
      · exact absurd h (by simp)
      · rename_i t2 hap
        have hmid : Rcore
            { s with world := (insertEntities s.world [cs]).2,
                     current_entity := some s.world.nextId }
            { t with command_buffer := (cbInsert t.command_buffer [cs]).2,
                     current_entity := some t.command_buffer.nextProv } := by
          have h3 := replay_after_insert s t [cs] hR
          exact ⟨h3.1, h3.2.1, h3.2.2, by rw [hR.2.2.1], hR.2.2.2.2⟩
        obtain ⟨s2, hap2, hR2, _⟩ := addParent_equiv _ _ hmid t2 hap
        obtain ⟨s', hrun, hR'⟩ := ih hrest s2 t2 t' hR2 h
        refine ⟨s', ?_, hR'⟩
        simp only [runW, insertEntities_one_ids]
        rw [hap2]
        exact hrun
    | .withChildren body =>
      simp [noWC] at hno

/-- Lockstep simulation for flat call chains (every `with_children`
body free of nested `with_children`), threading an empty deferred
parent stack. -/
theorem lockstep_flat : ∀ (l : List Cmd), flatProg l = true →
    ∀ (s : WB) (t t' : CB), Rcore s t → t.parent_entities = [] →
    runCB l t = .ok t' →
    ∃ s', runW l s = .ok s' ∧ Rcore s' t' ∧ t'.parent_entities = [] := by
  intro l
  induction l with
  | nil =>
    intro _ s t t' hR hstk h
    simp only [runCB, Except.ok.injEq] at h
    subst h
    exact ⟨s, by simp only [runW], hR, hstk⟩
  | cons c rest ih =>
    intro hno s t t' hR hstk h
    match c with
    | .entity =>
      have hrest : flatProg rest = true := by simpa [flatProg] using hno
      simp only [runCB, cbInsert_one_ids] at h
      split at h
      · exact absurd h (by simp)
      · rename_i t2 hap
        have hmid : Rcore
            { s with world := (insertEntities s.world [[]]).2,
                     current_entity := some s.world.nextId }
            { t with command_buffer := (cbInsert t.command_buffer [[]]).2,
                     current_entity := some t.command_buffer.nextProv } := by
          have h3 := replay_after_insert s t [[]] hR
          exact ⟨h3.1, h3.2.1, h3.2.2, by rw [hR.2.2.1], hR.2.2.2.2⟩
        obtain ⟨s2, hap2, hR2, hstk2⟩ := addParent_equiv _ _ hmid t2 hap
        obtain ⟨s', hrun, hR', hstk'⟩ := ih hrest s2 t2 t' hR2
          (by rw [hstk2]; exact hstk) h
        refine ⟨s', ?_, hR', hstk'⟩
        simp only [runW, insertEntities_one_ids]
        rw [hap2]
        exact hrun
    | .setEntity e =>
      have hrest : flatProg rest = true := by simpa [flatProg] using hno
      simp only [runCB] at h
      obtain ⟨s', hrun, hR', hstk'⟩ := ih hrest { s with current_entity := some e }
        { t with current_entity := some e } t'
        ⟨hR.1, hR.2.1, hR.2.2.1, rfl, hR.2.2.2.2⟩ hstk h
      exact ⟨s', by simp only [runW]; exact hrun, hR', hstk'⟩
    | .withC cc =>
      have hrest : flatProg rest = true := by simpa [flatProg] using hno
      simp only [runCB] at h
      split at h
      · exact absurd h (by simp)
      · rename_i e hc
        have hsc : s.current_entity = some e := by rw [← hR.2.2.2.1, hc]
        have h3 := replay_after_add s t e cc hR
        obtain ⟨s', hrun, hR', hstk'⟩ := ih hrest
          { s with world := (addComponent s.world e cc).1 }
          { t with command_buffer := cbAddComponent t.command_buffer e cc } t'
          ⟨h3.1, h3.2.1, h3.2.2, hR.2.2.2.1, hR.2.2.2.2⟩ hstk h
        refine ⟨s', ?_, hR', hstk'⟩
        simp only [runW, hsc]
        rw [hsc] at hrun
        exact hrun
    | .entitiesB css =>
      have hrest : flatProg rest = true := by simpa [flatProg] using hno
      simp only [runCB] at h
      have h3 := replay_after_insert s t css hR
      obtain ⟨s', hrun, hR', hstk'⟩ := ih hrest
        { s with world := (insertEntities s.world css).2 }
        { t with command_buffer := (cbInsert t.command_buffer css).2 } t'
        ⟨h3.1, h3.2.1, h3.2.2, hR.2.2.2.1, hR.2.2.2.2⟩ hstk h
      exact ⟨s', by simp only [runW]; exact hrun, hR', hstk'⟩
    | .entityWith cs =>
      have hrest : flatProg rest = true := by simpa [flatProg] using hno
      simp only [runCB, cbInsert_one_ids] at h
      split at h
      · exact absurd h (by simp)
      · rename_i t2 hap
        have hmid : Rcore
            { s with world := (insertEntities s.world [cs]).2,
                     current_entity := some s.world.nextId }
            { t with command_buffer := (cbInsert t.command_buffer [cs]).2,
                     current_entity := some t.command_buffer.nextProv } := by
          have h3 := replay_after_insert s t [cs] hR
          exact ⟨h3.1, h3.2.1, h3.2.2, by rw [hR.2.2.1], hR.2.2.2.2⟩
        obtain ⟨s2, hap2, hR2, hstk2⟩ := addParent_equiv _ _ hmid t2 hap
        obtain ⟨s', hrun, hR', hstk'⟩ := ih hrest s2 t2 t' hR2
          (by rw [hstk2]; exact hstk) h
        refine ⟨s', ?_, hR', hstk'⟩
        simp only [runW, insertEntities_one_ids]
        rw [hap2]
        exact hrun
    | .withChildren body =>
      have hbody : noWC body = true := by
        have := hno
        simp [flatProg] at this
        exact this.1
      have hrest : flatProg rest = true := by
        have := hno
        simp [flatProg] at this
        exact this.2
      simp only [runCB] at h
      split at h
      · exact absurd h (by simp)
      · rename_i ce hc
        split at h
        · exact absurd h (by simp)
        · rename_i t2 ht2
          have hsc : s.current_entity = some ce := by rw [← hR.2.2.2.1, hc]
          have hR1 : Rcore
              { s with parent_entity := s.current_entity, current_entity := none }
              { t with parent_entities := ce :: t.parent_entities,
                       parent_entity := some ce, current_entity := none } :=
            ⟨hR.1, hR.2.1, hR.2.2.1, rfl, by rw [hsc]⟩
          obtain ⟨s2, hrun2, hR2⟩ := lockstep_noWC body hbody _ _ t2 hR1 ht2
          have hstack : t2.parent_entities = ce :: t.parent_entities :=
            (runCB_stack_inv body _ t2 ht2).1
          have hpar2 : s2.parent_entity = s.current_entity :=
            runW_noWC_parent body hbody _ s2 hrun2
          rw [hstack, hstk] at h
          simp only [List.tail_cons, List.head?_cons, List.isEmpty_nil,
            if_true] at h
          obtain ⟨s', hrun', hR', hstk'⟩ := ih hrest
            { s2 with current_entity := s2.parent_entity, parent_entity := none }
            { t2 with current_entity := some ce, parent_entities := ([] : List Nat),
                      parent_entity := none } t'
            ⟨hR2.1, hR2.2.1, hR2.2.2.1, by rw [hpar2, hsc], rfl⟩ rfl h
          refine ⟨s', ?_, hR', hstk'⟩
          simp only [runW]
          rw [hrun2]
          exact hrun'

end Lockstep

section Claims

/-- C8: for both builder variants and every identifier `e`,
`set_entity(e)` sets `current_entity` to `e` and changes nothing else:
the world is not touched and no entity is inserted, no component (in
particular no `Parent`/`LocalTransform`) is added or recorded, and the
parent slot and the deferred parent stack are unchanged. -/
theorem c8_set_entity_frame :
    (∀ (s : WB) (e : Nat),
      runW [.setEntity e] s = .ok { s with current_entity := some e }) ∧
    (∀ (t : CB) (e : Nat),
      runCB [.setEntity e] t = .ok { t with current_entity := some e }) := by
  constructor
  · intro s e
    simp only [runW]
  · intro t e
    simp only [runCB]

/-- C7: for both builder variants, `with(component)` with no current
entity panics at once with the `unwrap`-on-`None` failure (never a
silent no-op); with a current (alive) entity it adds exactly the one
component to that entity — immediately on the world for the immediate
variant, as a recorded `add_component` operation for the deferred
variant. -/
theorem c7_with_precondition :
    (∀ (s : WB) (c : Component), s.current_entity = none →
      runW [.withC c] s = .error .unwrapNone) ∧
    (∀ (t : CB) (c : Component), t.current_entity = none →
      runCB [.withC c] t = .error .unwrapNone) ∧
    (∀ (s : WB) (e : Nat) (c : Component), s.current_entity = some e →
      e < s.world.nextId →
      ∃ s', runW [.withC c] s = .ok s' ∧
        componentsOf s'.world e = componentsOf s.world e ++ [c] ∧
        (∀ e', e' ≠ e → componentsOf s'.world e' = componentsOf s.world e') ∧
        s'.current_entity = some e) ∧
    (∀ (t : CB) (e : Nat) (c : Component), t.current_entity = some e →
      runCB [.withC c] t =
        .ok { t with command_buffer := cbAddComponent t.command_buffer e c }) := by
  refine ⟨?_, ?_, ?_, ?_⟩
  · intro s c hc
    simp only [runW, hc]
  · intro t c hc
    simp only [runCB, hc]
  · intro s e c hc he
    refine ⟨{ s with world := (addComponent s.world e c).1 }, ?_, ?_, ?_, ?_⟩
    · simp only [runW, hc]
    · exact componentsOf_addComponent_self s.world e c he
    · intro e' hne
      exact componentsOf_addComponent_ne s.world e e' c hne
    · rw [← hc]
  · intro t e c hc
    simp only [runCB, hc]

/-- C7 witness: both failure halves fire on a builder with no current
entity, and both success halves fire on a one-entity world. -/
theorem c7_with_precondition_witness :
    ((buildWB freshWorld).current_entity = none ∧
      runW [.withC (.user 3)] (buildWB freshWorld) = .error .unwrapNone) ∧
    ((buildCB freshBuffer).current_entity = none ∧
      runCB [.withC (.user 3)] (buildCB freshBuffer) = .error .unwrapNone) ∧
    ((⟨⟨1, []⟩, some 0, none⟩ : WB).current_entity = some 0 ∧
      (0 : Nat) < (⟨⟨1, []⟩, some 0, none⟩ : WB).world.nextId ∧
      ∃ s', runW [.withC (.user 3)] ⟨⟨1, []⟩, some 0, none⟩ = .ok s' ∧
        componentsOf s'.world 0
          = componentsOf (⟨⟨1, []⟩, some 0, none⟩ : WB).world 0 ++ [.user 3] ∧
        (∀ e', e' ≠ 0 → componentsOf s'.world e'
          = componentsOf (⟨⟨1, []⟩, some 0, none⟩ : WB).world e') ∧
        s'.current_entity = some 0) ∧
    ((⟨⟨1, []⟩, some 0, [], none⟩ : CB).current_entity = some 0 ∧
      runCB [.withC (.user 3)] ⟨⟨1, []⟩, some 0, [], none⟩ =
        .ok { (⟨⟨1, []⟩, some 0, [], none⟩ : CB) with
          command_buffer := cbAddComponent (⟨1, []⟩ : CommandBuffer) 0 (.user 3) }) :=
  ⟨⟨rfl, c7_with_precondition.1 (buildWB freshWorld) (.user 3) rfl⟩,
   ⟨rfl, c7_with_precondition.2.1 (buildCB freshBuffer) (.user 3) rfl⟩,
   ⟨rfl, by decide,
    c7_with_precondition.2.2.1 ⟨⟨1, []⟩, some 0, none⟩ 0 (.user 3) rfl (by decide)⟩,
   ⟨rfl, c7_with_precondition.2.2.2 ⟨⟨1, []⟩, some 0, [], none⟩ 0 (.user 3) rfl⟩⟩

/-- C5 counterexample: the claim says a store-level `add_component`
failure propagates to the caller.  It does not: `set_entity(5)` on an
empty world makes entity `5` (not alive) current; the following
`with` call's `add_component` fails at the store level, but the chain
returns successfully with the world unchanged — the builder discards
the store's result (`let _ = ...`). -/
theorem c5_counterexample :
    runW [.setEntity 5, .withC (.user 7)] (buildWB freshWorld)
      = .ok ⟨freshWorld, some 5, none⟩ := by
  simp [runW, buildWB, freshWorld, addComponent]

/-- C5 (amended): a store-level failure returned by `add_component` is
discarded by the immediate builder — the world is left unchanged by the
failed call and the chain continues normally with no error; for the
deferred builder, recording `add_component` into the buffer cannot fail
at all (failures can only surface when the buffer is replayed). -/
theorem c5_store_failure_masked :
    (∀ (s : WB) (e : Nat) (c : Component), s.current_entity = some e →
      ¬ e < s.world.nextId → runW [.withC c] s = .ok s) ∧
    (∀ (t : CB) (e : Nat) (c : Component), t.current_entity = some e →
      runCB [.withC c] t =
        .ok { t with command_buffer := cbAddComponent t.command_buffer e c }) := by
  constructor
  · intro s e c hc he
    have hd := addComponent_dead s.world e c he
    simp only [runW, hc, hd]
    rw [← hc]
  · intro t e c hc
    simp only [runCB, hc]

/-- C5 witness: entity `5` is current but not alive on the fresh world,
and the failing `with` leaves the chain successful. -/
theorem c5_store_failure_masked_witness :
    ((⟨freshWorld, some 5, none⟩ : WB).current_entity = some 5 ∧
      ¬ (5 : Nat) < (⟨freshWorld, some 5, none⟩ : WB).world.nextId ∧
      runW [.withC (.user 7)] ⟨freshWorld, some 5, none⟩
        = .ok ⟨freshWorld, some 5, none⟩) ∧
    ((⟨freshBuffer, some 5, [], none⟩ : CB).current_entity = some 5 ∧
      runCB [.withC (.user 7)] ⟨freshBuffer, some 5, [], none⟩ =
        .ok { (⟨freshBuffer, some 5, [], none⟩ : CB) with
          command_buffer := cbAddComponent freshBuffer 5 (.user 7) }) :=
  ⟨⟨rfl, by decide,
    c5_store_failure_masked.1 ⟨freshWorld, some 5, none⟩ 5 (.user 7) rfl (by decide)⟩,
   ⟨rfl, c5_store_failure_masked.2 ⟨freshBuffer, some 5, [], none⟩ 5 (.user 7) rfl⟩⟩

/-- C4 counterexample: the claim says both variants fail loudly when
`with_children` is called with no current entity.  The immediate
`WorldBuilder` performs no check at all: from a fresh builder (no
current entity) a `with_children` call runs its closure against a
parentless scope and completes successfully. -/
theorem c4_counterexample :
    (runW [.withChildren [.entity]] (buildWB freshWorld)).isOk = true := by
  simp [runW, buildWB, freshWorld, insertEntities, addParentToCurrentW,
    addComponent, Except.isOk, Except.toBool]

/-- C4 (amended): only the deferred `CommandBufferBuilder` checks the
precondition, failing with the "Cannot add children without a parent.
Try creating an entity first." diagnostic; the immediate
`WorldBuilder` makes no check and silently proceeds (an empty closure
completes successfully, merely clearing the parent slot). -/
theorem c4_children_without_parent :
    (∀ (t : CB) (body : List Cmd), t.current_entity = none →
      runCB [.withChildren body] t
        = .error (.expectFail childrenWithoutParentMsg)) ∧
    (∀ s : WB, s.current_entity = none →
      runW [.withChildren []] s = .ok { s with parent_entity := none }) := by
  constructor
  · intro t body hc
    simp only [runCB, hc]
  · intro s hc
    simp only [runW]

/-- C4 witness: fresh builders have no current entity; the deferred
variant rejects `with_children`, the immediate one accepts it. -/
theorem c4_children_without_parent_witness :
    ((buildCB freshBuffer).current_entity = none ∧
      runCB [.withChildren [.entity]] (buildCB freshBuffer)
        = .error (.expectFail childrenWithoutParentMsg)) ∧
    ((buildWB freshWorld).current_entity = none ∧
      runW [.withChildren []] (buildWB freshWorld)
        = .ok { buildWB freshWorld with parent_entity := none }) :=
  ⟨⟨rfl, c4_children_without_parent.1 (buildCB freshBuffer) [.entity] rfl⟩,
   ⟨rfl, c4_children_without_parent.2 (buildWB freshWorld) rfl⟩⟩

/-- C10: the deferred builder's cached top `parent_entity` equals the
top of its explicit stack `parent_entities` at a freshly built
builder, and every successfully completed call chain (in particular
every single public operation) preserves this invariant — including
entry into and exit from `with_children` at any depth, since the
quantification is over arbitrary command lists. -/
theorem c10_cached_top_invariant :
    (∀ cb : CommandBuffer, InvCB (buildCB cb)) ∧
    (∀ (l : List Cmd) (t t' : CB), InvCB t → runCB l t = .ok t' → InvCB t') :=
  ⟨fun _ => rfl, fun l t t' hInv h => (runCB_stack_inv l t t' h).2 hInv⟩

/-- C10 witness: the invariant propagates across a concrete
`with_children` nesting. -/
theorem c10_cached_top_invariant_witness :
    InvCB (buildCB freshBuffer) ∧
    (runCB [.entity, .withChildren [.entity]] (buildCB freshBuffer)
        = .ok ⟨⟨2, [.insert [0] [[]], .insert [1] [[]],
                    .addComp 1 (.parent 0), .addComp 1 .localTransform]⟩,
               some 0, [], none⟩ ∧
      InvCB ⟨⟨2, [.insert [0] [[]], .insert [1] [[]],
                  .addComp 1 (.parent 0), .addComp 1 .localTransform]⟩,
             some 0, [], none⟩) :=
  ⟨rfl,
   by simp [runCB, buildCB, freshBuffer, cbInsert, cbAddComponent,
     addParentToCurrentCB],
   c10_cached_top_invariant.2 [.entity, .withChildren [.entity]]
     (buildCB freshBuffer) _ rfl
     (by simp [runCB, buildCB, freshBuffer, cbInsert, cbAddComponent,
       addParentToCurrentCB])⟩

/-- C9: after any immediate-builder `with_children` call returns —
whatever the closure did, at any nesting depth — the single
`parent_entity` slot is `None`; consequently an entity created next by
`entity()` receives no `Parent` and no `LocalTransform` component even
if an outer scope was conceptually still open. -/
theorem c9_parent_slot_cleared :
    (∀ (body : List Cmd) (s s' : WB),
      runW [.withChildren body] s = .ok s' → s'.parent_entity = none) ∧
    (∀ s : WB, WFWorld s.world = true → s.parent_entity = none →
      ∃ s', runW [.entity] s = .ok s' ∧
        s'.current_entity = some s.world.nextId ∧
        componentsOf s'.world s.world.nextId = []) := by
  constructor
  · intro body s s' h
    simp only [runW] at h
    split at h
    · exact absurd h (by simp)
    · rename_i s2 hb
      simp only [runW, Except.ok.injEq] at h
      subst h
      rfl
  · intro s hw hp
    refine ⟨{ s with world := (insertEntities s.world [[]]).2,
                     current_entity := some s.world.nextId }, ?_, rfl, ?_⟩
    · simp only [runW, insertEntities_one_ids]
      have : addParentToCurrentW { s with world := (insertEntities s.world [[]]).2,
                                          current_entity := some s.world.nextId }
          = .ok { s with world := (insertEntities s.world [[]]).2,
                         current_entity := some s.world.nextId } := by
        unfold addParentToCurrentW
        simp only [hp]
      rw [this]
    · have := componentsOf_insertEntities [[]] s.world 0 hw (by simp)
      simpa using this

/-- C9 witness: a depth-one hierarchy, then a sibling entity created
after the scope closed: the slot is clear and the new entity is bare. -/
theorem c9_parent_slot_cleared_witness :
    (runW [.withChildren [.entity]] ⟨⟨1, []⟩, some 0, none⟩
        = .ok ⟨⟨2, [(1, .parent 0), (1, .localTransform)]⟩, some 0, none⟩ ∧
      (⟨⟨2, [(1, .parent 0), (1, .localTransform)]⟩, some 0, none⟩ : WB).parent_entity
        = none) ∧
    (WFWorld (⟨2, [(1, .parent 0), (1, .localTransform)]⟩ : World) = true ∧
      (⟨⟨2, [(1, .parent 0), (1, .localTransform)]⟩, some 0, none⟩ : WB).parent_entity
        = none ∧
      ∃ s', runW [.entity] ⟨⟨2, [(1, .parent 0), (1, .localTransform)]⟩, some 0, none⟩
          = .ok s' ∧
        s'.current_entity = some 2 ∧
        componentsOf s'.world 2 = []) :=
  ⟨⟨by simp [runW, insertEntities, addParentToCurrentW, addComponent],
    c9_parent_slot_cleared.1 [.entity] ⟨⟨1, []⟩, some 0, none⟩ _
      (by simp [runW, insertEntities, addParentToCurrentW, addComponent])⟩,
   ⟨by decide, rfl,
    c9_parent_slot_cleared.2 ⟨⟨2, [(1, .parent 0), (1, .localTransform)]⟩, some 0, none⟩
      (by decide) rfl⟩⟩

theorem addParentToCurrentW_some (s : WB) (e p : Nat)
    (hc : s.current_entity = some e) (hp : s.parent_entity = some p) :
    addParentToCurrentW s = .ok { s with
      world := (addComponent (addComponent s.world e (.parent p)).1
        e .localTransform).1 } := by
  unfold addParentToCurrentW
  simp only [hc, hp]

/-- C6: `entities(...)` leaves `current_entity` and the scope state
untouched and applies no parent-link policy in either variant: the
immediate builder gives each created entity exactly the caller-supplied
component list (so no `Parent`/`LocalTransform` beyond what the caller
passed — `noLink` sources stay `noLink`), and the deferred builder
records exactly one bulk-insert operation and no `add_component`. -/
theorem c6_entities_no_linkage :
    (∀ (s : WB) (css : List (List Component)), WFWorld s.world = true →
      ∃ s', runW [.entitiesB css] s = .ok s' ∧
        s'.current_entity = s.current_entity ∧
        s'.parent_entity = s.parent_entity ∧
        (∀ i, i < css.length →
          componentsOf s'.world (s.world.nextId + i) = css.getD i []) ∧
        (∀ i, i < css.length → (css.getD i []).all noLink = true →
          (componentsOf s'.world (s.world.nextId + i)).all noLink = true)) ∧
    (∀ (t : CB) (css : List (List Component)),
      runCB [.entitiesB css] t =
        .ok { t with command_buffer := (cbInsert t.command_buffer css).2 } ∧
      (cbInsert t.command_buffer css).2.log
        = t.command_buffer.log
          ++ [.insert (List.range' t.command_buffer.nextProv css.length) css]) := by
  constructor
  · intro s css hw
    refine ⟨{ s with world := (insertEntities s.world css).2 }, ?_, rfl, rfl, ?_, ?_⟩
    · simp only [runW]
    · intro i hi
      exact componentsOf_insertEntities css s.world i hw hi
    · intro i hi hall
      rw [componentsOf_insertEntities css s.world i hw hi]
      exact hall
  · intro t css
    exact ⟨by simp only [runCB], rfl⟩

/-- C6 witness: two bulk entities with linkage-free sources, created
while a parent scope is active on both builders. -/
theorem c6_entities_no_linkage_witness :
    (WFWorld (⟨1, []⟩ : World) = true ∧
      ∃ s', runW [.entitiesB [[.user 1], []]] ⟨⟨1, []⟩, some 0, some 0⟩ = .ok s' ∧
        s'.current_entity = some 0 ∧
        s'.parent_entity = some 0 ∧
        (∀ i, i < 2 →
          componentsOf s'.world (1 + i) = [[Component.user 1], []].getD i []) ∧
        (∀ i, i < 2 → ([[Component.user 1], []].getD i []).all noLink = true →
          (componentsOf s'.world (1 + i)).all noLink = true)) ∧
    (runCB [.entitiesB [[.user 1], []]] ⟨⟨1, []⟩, some 0, [0], some 0⟩ =
        .ok { (⟨⟨1, []⟩, some 0, [0], some 0⟩ : CB) with
          command_buffer := (cbInsert ⟨1, []⟩ [[.user 1], []]).2 } ∧
      (cbInsert (⟨1, []⟩ : CommandBuffer) [[.user 1], []]).2.log
        = [.insert [1, 2] [[.user 1], []]]) :=
  ⟨⟨by decide, c6_entities_no_linkage.1 ⟨⟨1, []⟩, some 0, some 0⟩
      [[.user 1], []] (by decide)⟩,
   ⟨(c6_entities_no_linkage.2 ⟨⟨1, []⟩, some 0, [0], some 0⟩ [[.user 1], []]).1,
    by decide⟩⟩

/-- C3 counterexample: the claim asserts parent linkage for every
entity created inside an active scope, in both variants.  In the
program `entity(0); with_children { entity(1); with_children {
entity(2) }; entity(3) }` the fourth `entity()` call happens inside
the outer scope rooted at entity `0` (after the inner scope closed),
yet in the immediate builder entity `3` receives no component at all —
while the deferred builder, under the same call sequence, links it to
`Parent 0` with a `LocalTransform`.  The immediate variant therefore
violates the claim at nesting depth 2. -/
theorem c3_counterexample :
    (runW [.entity, .withChildren [.entity, .withChildren [.entity], .entity]]
        (buildWB freshWorld)).map (fun s => componentsOf s.world 3)
      = .ok [] ∧
    (runCB [.entity, .withChildren [.entity, .withChildren [.entity], .entity]]
        (buildCB freshBuffer)).map
        (fun t => componentsOf (applyBuffer t.command_buffer freshWorld) 3)
      = .ok [.parent 0, .localTransform] := by
  constructor
  · simp [runW, buildWB, freshWorld, insertEntities, addParentToCurrentW,
      addComponent, Except.map, componentsOf, compsOfList]
  · simp [runCB, buildCB, freshBuffer, cbInsert, cbAddComponent,
      addParentToCurrentCB, Except.map, applyBuffer, replayOps, lookupBind,
      insertEntities, addComponent, componentsOf, compsOfList]
    decide

/-- C3 (amended): the parent-link policy is applied exactly when the
builder's parent slot is set (equivalently, for the deferred builder
with its cached-top invariant, when the parent stack is non-empty with
top `p`): the entity created by `entity()` then carries exactly
`[Parent p, LocalTransform]` and the one created by
`entity_with(cs)` exactly `cs ++ [Parent p, LocalTransform]` — each
policy component attached exactly once, before the call returns; the
deferred builder records exactly the insert and the two policy
`add_component` operations.  (After an inner `with_children` returns,
the immediate builder's slot is `None`, so entities created then get
no linkage even though an outer scope is lexically open — see the
counterexample.) -/
theorem c3_parent_link_policy :
    (∀ (s : WB) (p : Nat), WFWorld s.world = true → s.parent_entity = some p →
      ∃ s', runW [.entity] s = .ok s' ∧
        s'.current_entity = some s.world.nextId ∧
        componentsOf s'.world s.world.nextId = [.parent p, .localTransform]) ∧
    (∀ (s : WB) (p : Nat) (cs : List Component), WFWorld s.world = true →
      s.parent_entity = some p →
      ∃ s', runW [.entityWith cs] s = .ok s' ∧
        s'.current_entity = some s.world.nextId ∧
        componentsOf s'.world s.world.nextId
          = cs ++ [.parent p, .localTransform]) ∧
    (∀ (t : CB) (p : Nat), InvCB t → t.parent_entities.head? = some p →
      runCB [.entity] t = .ok
        { t with
            command_buffer :=
              ⟨t.command_buffer.nextProv + 1,
                t.command_buffer.log ++
                  [.insert [t.command_buffer.nextProv] [[]],
                    .addComp t.command_buffer.nextProv (.parent p),
                    .addComp t.command_buffer.nextProv .localTransform]⟩,
            current_entity := some t.command_buffer.nextProv }) ∧
    (∀ (t : CB) (p : Nat) (cs : List Component), InvCB t →
      t.parent_entities.head? = some p →
      runCB [.entityWith cs] t = .ok
        { t with
            command_buffer :=
              ⟨t.command_buffer.nextProv + 1,
                t.command_buffer.log ++
                  [.insert [t.command_buffer.nextProv] [cs],
                    .addComp t.command_buffer.nextProv (.parent p),
                    .addComp t.command_buffer.nextProv .localTransform]⟩,
            current_entity := some t.command_buffer.nextProv }) := by
  refine ⟨?_, ?_, ?_, ?_⟩
  · intro s p hw hp
    have he1 : s.world.nextId < (insertEntities s.world [[]]).2.nextId := by
      rw [insertEntities_nextId]
      simp
    have he2 : s.world.nextId <
        (addComponent (insertEntities s.world [[]]).2 s.world.nextId
          (.parent p)).1.nextId := by
      rw [addComponent_nextId]
      exact he1
    have hc0 : componentsOf (insertEntities s.world [[]]).2 s.world.nextId = [] := by
      have := componentsOf_insertEntities [[]] s.world 0 hw (by simp)
      simpa using this
    refine ⟨{ s with
                world := (addComponent (addComponent (insertEntities s.world [[]]).2
                  s.world.nextId (.parent p)).1 s.world.nextId .localTransform).1,
                current_entity := some s.world.nextId }, ?_, rfl, ?_⟩
    · simp only [runW, insertEntities_one_ids]
      have hap := addParentToCurrentW_some
        ⟨(insertEntities s.world [[]]).2, some s.world.nextId, s.parent_entity⟩
        s.world.nextId p rfl hp
      rw [hap]
    · show componentsOf (addComponent (addComponent (insertEntities s.world [[]]).2
        s.world.nextId (.parent p)).1 s.world.nextId .localTransform).1
          s.world.nextId = _
      rw [componentsOf_addComponent_self _ _ _ he2,
        componentsOf_addComponent_self _ _ _ he1, hc0]
      rfl
  · intro s p cs hw hp
    have he1 : s.world.nextId < (insertEntities s.world [cs]).2.nextId := by
      rw [insertEntities_nextId]
      simp
    have he2 : s.world.nextId <
        (addComponent (insertEntities s.world [cs]).2 s.world.nextId
          (.parent p)).1.nextId := by
      rw [addComponent_nextId]
      exact he1
    have hc0 : componentsOf (insertEntities s.world [cs]).2 s.world.nextId = cs := by
      have := componentsOf_insertEntities [cs] s.world 0 hw (by simp)
      simpa using this
    refine ⟨{ s with
                world := (addComponent (addComponent (insertEntities s.world [cs]).2
                  s.world.nextId (.parent p)).1 s.world.nextId .localTransform).1,
                current_entity := some s.world.nextId }, ?_, rfl, ?_⟩
    · simp only [runW, insertEntities_one_ids]
      have hap := addParentToCurrentW_some
        ⟨(insertEntities s.world [cs]).2, some s.world.nextId, s.parent_entity⟩
        s.world.nextId p rfl hp
      rw [hap]
    · show componentsOf (addComponent (addComponent (insertEntities s.world [cs]).2
        s.world.nextId (.parent p)).1 s.world.nextId .localTransform).1
          s.world.nextId = _
      rw [componentsOf_addComponent_self _ _ _ he2,
        componentsOf_addComponent_self _ _ _ he1, hc0]
      simp [List.append_assoc]
  · intro t p hInv hhead
    have hp : t.parent_entity = some p := by
      unfold InvCB at hInv
      rw [hInv, hhead]
    have hap : addParentToCurrentCB
        { t with command_buffer := (cbInsert t.command_buffer [[]]).2,
                 current_entity := some t.command_buffer.nextProv }
        = .ok { t with
            command_buffer := cbAddComponent (cbAddComponent
              (cbInsert t.command_buffer [[]]).2 t.command_buffer.nextProv
              (.parent p)) t.command_buffer.nextProv .localTransform,
            current_entity := some t.command_buffer.nextProv } := by
      unfold addParentToCurrentCB
      simp only [hp]
    simp only [runCB, cbInsert_one_ids]
    rw [hap]
    simp [runCB, cbInsert, cbAddComponent]
  · intro t p cs hInv hhead
    have hp : t.parent_entity = some p := by
      unfold InvCB at hInv
      rw [hInv, hhead]
    have hap : addParentToCurrentCB
        { t with command_buffer := (cbInsert t.command_buffer [cs]).2,
                 current_entity := some t.command_buffer.nextProv }
        = .ok { t with
            command_buffer := cbAddComponent (cbAddComponent
              (cbInsert t.command_buffer [cs]).2 t.command_buffer.nextProv
              (.parent p)) t.command_buffer.nextProv .localTransform,
            current_entity := some t.command_buffer.nextProv } := by
      unfold addParentToCurrentCB
      simp only [hp]
    simp only [runCB, cbInsert_one_ids]
    rw [hap]
    simp [runCB, cbInsert, cbAddComponent]

/-- C3 witness: a one-entity world with an active parent scope rooted
at entity `0`, for all four policy paths. -/
theorem c3_parent_link_policy_witness :
    (WFWorld (⟨1, []⟩ : World) = true ∧
      (⟨⟨1, []⟩, none, some 0⟩ : WB).parent_entity = some 0 ∧
      ∃ s', runW [.entity] ⟨⟨1, []⟩, none, some 0⟩ = .ok s' ∧
        s'.current_entity = some 1 ∧
        componentsOf s'.world 1 = [.parent 0, .localTransform]) ∧
    (∃ s', runW [.entityWith [.user 4]] ⟨⟨1, []⟩, none, some 0⟩ = .ok s' ∧
      s'.current_entity = some 1 ∧
      componentsOf s'.world 1 = [.user 4, .parent 0, .localTransform]) ∧
    (InvCB ⟨⟨1, []⟩, none, [0], some 0⟩ ∧
      runCB [.entity] ⟨⟨1, []⟩, none, [0], some 0⟩ = .ok
        ⟨⟨2, [.insert [1] [[]], .addComp 1 (.parent 0),
             .addComp 1 .localTransform]⟩, some 1, [0], some 0⟩) ∧
    runCB [.entityWith [.user 4]] ⟨⟨1, []⟩, none, [0], some 0⟩ = .ok
      ⟨⟨2, [.insert [1] [[.user 4]], .addComp 1 (.parent 0),
           .addComp 1 .localTransform]⟩, some 1, [0], some 0⟩ :=
  ⟨⟨by decide, rfl,
    c3_parent_link_policy.1 ⟨⟨1, []⟩, none, some 0⟩ 0 (by decide) rfl⟩,
   c3_parent_link_policy.2.1 ⟨⟨1, []⟩, none, some 0⟩ 0 [.user 4] (by decide) rfl,
   ⟨by decide,
    c3_parent_link_policy.2.2.1 ⟨⟨1, []⟩, none, [0], some 0⟩ 0 (by decide) rfl⟩,
   c3_parent_link_policy.2.2.2 ⟨⟨1, []⟩, none, [0], some 0⟩ 0 [.user 4]
     (by decide) rfl⟩

/-- C1 counterexample: the claim asserts scope restoration for both
builders at every nesting depth.  For the immediate `WorldBuilder` it
fails at depth 2: after `entity()` the current entity is `0`, but
after `with_children { entity(); with_children { entity() } }` returns,
`current_entity` is `None` instead of `0` — the inner scope's exit
clobbered the single parent slot that the outer exit restores from. -/
theorem c1_counterexample :
    (runW [.entity] (buildWB freshWorld)).map (fun s => s.current_entity)
      = .ok (some 0) ∧
    (runW [.entity, .withChildren [.entity, .withChildren [.entity]]]
        (buildWB freshWorld)).map (fun s => s.current_entity)
      = .ok none := by
  constructor
  · simp [runW, buildWB, freshWorld, insertEntities, addParentToCurrentW,
      addComponent, Except.map]
  · simp [runW, buildWB, freshWorld, insertEntities, addParentToCurrentW,
      addComponent, Except.map]

/-- C1 (amended): the deferred `CommandBufferBuilder` restores its
scope state perfectly at every nesting depth: after `with_children`
returns, `current_entity` is the entity that was current at the call
and, given the cached-top invariant, both `parent_entities` and
`parent_entity` are exactly as before.  The immediate `WorldBuilder`
restores `current_entity` only when the closure contains no nested
`with_children`, and its parent slot is restored only when it was
`None` before the call (the exit unconditionally clears it). -/
theorem c1_scope_restoration :
    (∀ (body : List Cmd) (t t' : CB) (e : Nat),
      t.current_entity = some e → InvCB t →
      runCB [.withChildren body] t = .ok t' →
      t'.current_entity = some e ∧
      t'.parent_entities = t.parent_entities ∧
      t'.parent_entity = t.parent_entity) ∧
    (∀ (body : List Cmd) (s s' : WB), noWC body = true →
      s.parent_entity = none →
      runW [.withChildren body] s = .ok s' →
      s'.current_entity = s.current_entity ∧
      s'.parent_entity = s.parent_entity) := by
  constructor
  · intro body t t' e hc hInv h
    simp only [runCB] at h
    rw [hc] at h
    simp only at h
    split at h
    · exact absurd h (by simp)
    · rename_i t2 hbody
      simp only [runCB, Except.ok.injEq] at h
      subst h
      have hstack : t2.parent_entities = e :: t.parent_entities :=
        (runCB_stack_inv body _ t2 hbody).1
      refine ⟨?_, ?_, ?_⟩
      · show t2.parent_entities.head? = some e
        rw [hstack]
        rfl
      · show t2.parent_entities.tail = t.parent_entities
        rw [hstack]
        rfl
      · show (if t2.parent_entities.tail.isEmpty then none
              else t2.parent_entities.tail.head?) = t.parent_entity
        rw [hstack]
        simp only [List.tail_cons]
        unfold InvCB at hInv
        by_cases hemp : t.parent_entities.isEmpty = true
        · simp [hemp, hInv, List.isEmpty_iff.mp hemp]
        · simp [hemp, hInv]
  · intro body s s' hno hp h
    simp only [runW] at h
    split at h
    · exact absurd h (by simp)
    · rename_i s2 hbody
      simp only [runW, Except.ok.injEq] at h
      subst h
      have hpar : s2.parent_entity = s.current_entity :=
        runW_noWC_parent body hno _ s2 hbody
      exact ⟨hpar, hp.symm⟩

/-- C1 witness: a depth-one scope on both builders. -/
theorem c1_scope_restoration_witness :
    ((⟨⟨1, []⟩, some 0, [], none⟩ : CB).current_entity = some 0 ∧
      InvCB ⟨⟨1, []⟩, some 0, [], none⟩ ∧
      runCB [.withChildren [.entity]] ⟨⟨1, []⟩, some 0, [], none⟩
        = .ok ⟨⟨2, [.insert [1] [[]], .addComp 1 (.parent 0),
                    .addComp 1 .localTransform]⟩, some 0, [], none⟩ ∧
      (⟨⟨2, [.insert [1] [[]], .addComp 1 (.parent 0),
            .addComp 1 .localTransform]⟩, some 0, [], none⟩ : CB).current_entity
          = some 0 ∧
      (⟨⟨2, [.insert [1] [[]], .addComp 1 (.parent 0),
            .addComp 1 .localTransform]⟩, some 0, [], none⟩ : CB).parent_entities
          = (⟨⟨1, []⟩, some 0, [], none⟩ : CB).parent_entities ∧
      (⟨⟨2, [.insert [1] [[]], .addComp 1 (.parent 0),
            .addComp 1 .localTransform]⟩, some 0, [], none⟩ : CB).parent_entity
          = (⟨⟨1, []⟩, some 0, [], none⟩ : CB).parent_entity) ∧
    (noWC [.entity] = true ∧
      (⟨⟨1, []⟩, some 0, none⟩ : WB).parent_entity = none ∧
      runW [.withChildren [.entity]] ⟨⟨1, []⟩, some 0, none⟩
        = .ok ⟨⟨2, [(1, .parent 0), (1, .localTransform)]⟩, some 0, none⟩ ∧
      (⟨⟨2, [(1, .parent 0), (1, .localTransform)]⟩, some 0, none⟩ : WB).current_entity
          = (⟨⟨1, []⟩, some 0, none⟩ : WB).current_entity ∧
      (⟨⟨2, [(1, .parent 0), (1, .localTransform)]⟩, some 0, none⟩ : WB).parent_entity
          = (⟨⟨1, []⟩, some 0, none⟩ : WB).parent_entity) := by
  have hcb : runCB [.withChildren [.entity]] ⟨⟨1, []⟩, some 0, [], none⟩
      = .ok ⟨⟨2, [.insert [1] [[]], .addComp 1 (.parent 0),
                  .addComp 1 .localTransform]⟩, some 0, [], none⟩ := by
    simp [runCB, cbInsert, cbAddComponent, addParentToCurrentCB]
  have hw : runW [.withChildren [.entity]] ⟨⟨1, []⟩, some 0, none⟩
      = .ok ⟨⟨2, [(1, .parent 0), (1, .localTransform)]⟩, some 0, none⟩ := by
    simp [runW, insertEntities, addParentToCurrentW, addComponent]
  have h1 := c1_scope_restoration.1 [.entity] ⟨⟨1, []⟩, some 0, [], none⟩
    ⟨⟨2, [.insert [1] [[]], .addComp 1 (.parent 0),
         .addComp 1 .localTransform]⟩, some 0, [], none⟩ 0 rfl rfl hcb
  have h2 := c1_scope_restoration.2 [.entity] ⟨⟨1, []⟩, some 0, none⟩
    ⟨⟨2, [(1, .parent 0), (1, .localTransform)]⟩, some 0, none⟩ rfl rfl hw
  exact ⟨⟨rfl, rfl, hcb, h1.1, h1.2.1, h1.2.2⟩, ⟨rfl, rfl, hw, h2.1, h2.2⟩⟩

/-- C2 counterexample: the claim asserts the replayed deferred graph is
isomorphic to the immediate graph for every call sequence.  On
`entity(); with_children { entity(); with_children { entity() };
entity() }` the immediate world contains 2 `Parent` components while
the world obtained by replaying the deferred builder's log contains 3
(the deferred builder links the fourth entity to the outer parent, the
immediate one has lost that scope).  The number of `Parent`
relationship components is preserved by every graph isomorphism, so no
isomorphism (under any identifier binding) can exist. -/
theorem c2_counterexample :
    (runW [.entity, .withChildren [.entity, .withChildren [.entity], .entity]]
        (buildWB freshWorld)).map (fun s => countParents s.world)
      = .ok 2 ∧
    (runCB [.entity, .withChildren [.entity, .withChildren [.entity], .entity]]
        (buildCB freshBuffer)).map
        (fun t => countParents (applyBuffer t.command_buffer freshWorld))
      = .ok 3 := by
  constructor
  · simp [runW, buildWB, freshWorld, insertEntities, addParentToCurrentW,
      addComponent, Except.map, countParents]
  · simp [runCB, buildCB, freshBuffer, cbInsert, cbAddComponent,
      addParentToCurrentCB, Except.map, applyBuffer, replayOps, lookupBind,
      insertEntities, addComponent, countParents]
    intro a b hab
    simp [freshWorld] at hab

/-- C2 (amended): for flat call sequences — those in which no
`with_children` body contains a nested `with_children` — if the
deferred run from a fresh command buffer succeeds, then the immediate
run from a fresh world succeeds and applying the recorded log to a
fresh world yields exactly the immediate builder's world: the
component/relationship graphs are equal, with the
provisional-to-final identifier binding being the identity.  (At
nesting depth ≥ 2 the two variants genuinely diverge — see the
counterexample — and the deferred variant alone rejects
`with_children` without a current entity.) -/
theorem c2_flat_equivalence (p : List Cmd) (t' : CB)
    (hp : flatProg p = true)
    (h : runCB p (buildCB freshBuffer) = .ok t') :
    ∃ s', runW p (buildWB freshWorld) = .ok s' ∧
      applyBuffer t'.command_buffer freshWorld = s'.world := by
  obtain ⟨s', hrun, hR', _⟩ := lockstep_flat p hp (buildWB freshWorld)
    (buildCB freshBuffer) t' Rcore_init rfl h
  exact ⟨s', hrun, hR'.1⟩

/-- C2 witness: a two-entity parent/child chain built flat. -/
theorem c2_flat_equivalence_witness :
    flatProg [Cmd.entity, Cmd.withChildren [Cmd.entity]] = true ∧
    runCB [Cmd.entity, Cmd.withChildren [Cmd.entity]] (buildCB freshBuffer)
      = .ok ⟨⟨2, [.insert [0] [[]], .insert [1] [[]],
                  .addComp 1 (.parent 0), .addComp 1 .localTransform]⟩,
             some 0, [], none⟩ ∧
    (∃ s', runW [Cmd.entity, Cmd.withChildren [Cmd.entity]]
          (buildWB freshWorld) = .ok s' ∧
      applyBuffer (⟨2, [.insert [0] [[]], .insert [1] [[]],
          .addComp 1 (.parent 0), .addComp 1 .localTransform]⟩ : CommandBuffer)
        freshWorld = s'.world) := by
  have hcb : runCB [Cmd.entity, Cmd.withChildren [Cmd.entity]]
      (buildCB freshBuffer)
      = .ok ⟨⟨2, [.insert [0] [[]], .insert [1] [[]],
                  .addComp 1 (.parent 0), .addComp 1 .localTransform]⟩,
             some 0, [], none⟩ := by
    simp [runCB, buildCB, freshBuffer, cbInsert, cbAddComponent,
      addParentToCurrentCB]
  exact ⟨by decide, hcb,
    c2_flat_equivalence [Cmd.entity, Cmd.withChildren [Cmd.entity]] _
      (by decide) hcb⟩

end Claims

end WorldBuilderSpec
